import Mathlib

/-!
# Verification of the `ml-downloader` download coordinator

Shallow embedding of `src/lib.rs` of the `ml-downloader` crate.

Modelling conventions:
* Rust byte buffers (`Bytes`) and strings are `List Nat` (a Rust `String`
  is a sequence of UTF-8 bytes; all strings handled by the library are
  ASCII hex strings, where `str::to_lowercase` acts bytewise).
* `std::time::Duration` is its total length in nanoseconds (`Nat`);
  `Duration::as_micros` is division by 1000 (with the source's `as u64`
  cast modelled as `% 2 ^ 64`) and `Duration::from_micros` multiplies by
  1000.  `Instant` is an abstract timestamp (`Nat`); `Instant - Instant`
  saturates at zero exactly like `Nat` subtraction.
* External collaborators are oracles passed as parameters: the global
  PRNG `fastrand::u64(lo..=hi)` is a function `sample : Nat → Nat → Nat`
  together with the range hypothesis `SampleInRange`; `Instant::now()`
  inside the retry loop is `clock : Nat → Nat` indexed by the attempt
  number; the HTTP client's answer to the i-th attempt is an
  `HttpOutcome` (or, at the loop level, the whole outcome of
  `send_once` on the i-th attempt).
* Rust panics and divergence are modelled by `Option`: `none` means the
  Rust code would panic (a failed `unwrap`, an out-of-bounds index) or
  not terminate; `some` carries the ordinary result.
-/

namespace MlDownloader

/-- Rust `bytes::Bytes` / `Vec<u8>` / UTF-8 string content: a list of bytes. -/
abbrev Bytes := List Nat

-- ======================================================================
-- Error (src/lib.rs, `enum Error`)

/-- The `Error` enum of the library.  `reqwest` wraps an opaque transport
error coming from the HTTP client; distinct errors are distinguished by an
abstract identifier. -/
inductive Err where
  /-- `Error::Reqwest`: error from the underlying HTTP client. -/
  | reqwest (id : Nat)
  /-- `Error::StatusNotOk`: HTTP response status is not `OK` (200). -/
  | statusNotOk (status : Nat)
  /-- `Error::HashMismatch`: hash of downloaded file does not match. -/
  | hashMismatch (got expected : Bytes)
  /-- `Error::DownloadFailed`: one error for each (re)try. -/
  | downloadFailed (errors : List Err)

-- ======================================================================
-- DynDigest (the `digest::DynDigest` collaborator used by `send_once`)

/-- The digest capability (`digest::DynDigest`).  Its abstract state is the
data absorbed since the last reset; `hashFn` is the pure hash function of
the algorithm (by the trait contract its output has `output_size` bytes). -/
structure DynDigest where
  /-- `DynDigest::output_size()`. -/
  output_size : Nat
  /-- The pure digest function of the algorithm. -/
  hashFn : Bytes → Bytes
  /-- Data absorbed (via `update`) since the last reset. -/
  absorbed : Bytes

/-- `DynDigest::reset()`. -/
def DynDigest.reset (d : DynDigest) : DynDigest := { d with absorbed := [] }

/-- `DynDigest::update(data)`. -/
def DynDigest.update (d : DynDigest) (data : Bytes) : DynDigest :=
  { d with absorbed := d.absorbed ++ data }

/-- `DynDigest::finalize_into_reset(buf)`: fails (`InvalidBufferSize`) when
the buffer length differs from `output_size`, otherwise fills the buffer
with the digest of the absorbed data and resets the digest. -/
def DynDigest.finalize_into_reset (d : DynDigest) (buf : Bytes) :
    Option (Bytes × DynDigest) :=
  if buf.length = d.output_size then
    some (d.hashFn d.absorbed, { d with absorbed := [] })
  else
    none

-- ======================================================================
-- hex / case helpers (`hex::encode`, `str::to_lowercase`)

/-- Lowercase hex digit (as an ASCII byte) of a value `0 ≤ n < 16`. -/
def hexDigitByte (n : Nat) : Nat := if n < 10 then 48 + n else 87 + n

/-- `hex::encode`: lowercase hexadecimal of a byte buffer, two hex digits
per byte, as ASCII bytes. -/
def hexEncode (bytes : Bytes) : Bytes :=
  bytes.foldr (fun b acc => hexDigitByte (b / 16) :: hexDigitByte (b % 16) :: acc) []

/-- ASCII-lowercasing of one byte (`A`-`Z` shifted to `a`-`z`). -/
def toLowerByte (b : Nat) : Nat := if 65 ≤ b ∧ b ≤ 90 then b + 32 else b

/-- ASCII-uppercasing of one byte (`a`-`z` shifted to `A`-`Z`). -/
def toUpperByte (b : Nat) : Nat := if 97 ≤ b ∧ b ≤ 122 then b - 32 else b

/-- `str::to_lowercase`, restricted to ASCII strings (all strings the
library compares are hex strings, where Rust's Unicode lowercasing is
exactly this bytewise map). -/
def toLowercase (s : Bytes) : Bytes := s.map toLowerByte

/-- `str::to_uppercase`, restricted to ASCII strings. -/
def toUppercase (s : Bytes) : Bytes := s.map toUpperByte

/-- Is this byte an ASCII hex digit (`0`-`9`, `a`-`f`, `A`-`F`)? -/
def isHexByte (b : Nat) : Bool :=
  decide ((48 ≤ b ∧ b ≤ 57) ∨ (97 ≤ b ∧ b ≤ 102) ∨ (65 ≤ b ∧ b ≤ 70))

-- ======================================================================
-- RequestBuilder configuration and `RequestBuilder::hash`

/-- Per-request configuration of `RequestBuilder`.  The `downloader`
reference and the underlying `reqwest` request are not part of this
record: the coordinator state is threaded explicitly through `send` below,
and the HTTP exchange is an oracle.  The field `hashSt` is the `hash`
field of the Rust struct (renamed because the attaching method is also
called `hash`). -/
structure RequestBuilder where
  /-- The `hash` field: optional (lowercase-hex expected digest, digest). -/
  hashSt : Option (Bytes × DynDigest)

/-- `RequestBuilder::hash(expected, digest)`: stores the lowercased
expected hex string together with the digest. -/
def RequestBuilder.hash (rb : RequestBuilder) (expected : Bytes) (digest : DynDigest) :
    RequestBuilder :=
  { rb with hashSt := some (toLowercase expected, digest) }

-- ======================================================================
-- One attempt: `RequestBuilder::send_once`

/-- What the HTTP client did for one attempt: either the request itself
failed (`self.inner.try_clone().unwrap().send()` returned `Err`), or a
response arrived with a status code and a body-read outcome
(`response.bytes()` may itself fail with a transport error). -/
inductive HttpOutcome where
  /-- `send()` returned a `reqwest` error. -/
  | sendErr (id : Nat)
  /-- A response with `status()` and the outcome of `bytes()`. -/
  | response (status : Nat) (body : Except Nat Bytes)

/-- `RequestBuilder::send_once`, as a function of the `hash` field and of
the HTTP exchange for this attempt.  Returns `none` when the Rust code
would panic (the `unwrap` on `finalize_into_reset`), otherwise the
`Result` together with the updated `hash` field (the digest is mutated in
place in Rust). -/
def send_once (hashSt : Option (Bytes × DynDigest)) (out : HttpOutcome) :
    Option (Except Err Bytes × Option (Bytes × DynDigest)) :=
  match out with
  | .sendErr id => some (.error (.reqwest id), hashSt)
  | .response status body =>
    if status ≠ 200 then
      some (.error (.statusNotOk status), hashSt)
    else
      match body with
      | .error id => some (.error (.reqwest id), hashSt)
      | .ok bytes =>
        match hashSt with
        | none => some (.ok bytes, none)
        | some (expected, digest) =>
          let d1 := digest.reset
          let d2 := d1.update bytes
          let buf : Bytes := List.replicate d2.output_size 0
          match d2.finalize_into_reset buf with
          | none => none
          | some (out, d3) =>
            let got := hexEncode out
            if got ≠ expected then
              some (.error (.hashMismatch got expected), some (expected, d3))
            else
              some (.ok bytes, some (expected, d3))

-- ======================================================================
-- random_duration (src/lib.rs, `fn random_duration`)

/-- `fn random_duration(min, max)`:
`Duration::from_micros(fastrand::u64(min.as_micros() as u64 ..= max.as_micros() as u64))`.
Durations are in nanoseconds; `as_micros` is `/ 1000`, the `u128 → u64`
cast is `% 2 ^ 64`, `from_micros` is `* 1000`.  `sample lo hi` models
`fastrand::u64(lo..=hi)`; `fastrand` panics on an empty range (`lo > hi`),
where the model simply leaves `sample` unconstrained (no claim reaches
that case). -/
def random_duration (sample : Nat → Nat → Nat) (mn mx : Nat) : Nat :=
  1000 * sample (mn / 1000 % 2 ^ 64) (mx / 1000 % 2 ^ 64)

/-- The contract of `fastrand::u64(lo..=hi)`: on a nonempty range the
sample lies in the inclusive range. -/
def SampleInRange (sample : Nat → Nat → Nat) : Prop :=
  ∀ lo hi, lo ≤ hi → lo ≤ sample lo hi ∧ sample lo hi ≤ hi

-- ======================================================================
-- Downloader state and `Downloader::sleep_until_ready`

/-- The coordinator state (`struct Downloader`).  The `client` field is an
external collaborator and is not part of the state; durations are in
nanoseconds, `prev_download_start` is an abstract `Instant`. -/
structure Downloader where
  /-- `min_interval` (nanoseconds). -/
  min_interval : Nat
  /-- `max_interval` (nanoseconds). -/
  max_interval : Nat
  /-- `retry_delays`: one `(min, max)` pair (nanoseconds) per retry. -/
  retry_delays : List (Nat × Nat)
  /-- `prev_download_start: Option<Instant>`. -/
  prev_download_start : Option Nat

/-- Observable events of one `send` call, in order of occurrence. -/
inductive Event where
  /-- The `thread::sleep` inside `sleep_until_ready`, with its length. -/
  | intervalSleep (d : Nat)
  /-- `self.downloader.prev_download_start = Some(Instant::now())`. -/
  | setPrevStart (t : Nat)
  /-- The i-th call of `send_once` (attempt number `i`, starting at 0). -/
  | attempt (i : Nat)
  /-- The `thread::sleep(random_duration(retry_delays[i]))` after failed
  attempt `i`, with the sampled length. -/
  | retrySleep (i : Nat) (d : Nat)

/-- `Downloader::sleep_until_ready`.  `now` is the `Instant::now()` read
inside (`Instant` subtraction saturates at zero, like `Nat` subtraction);
`sample` models the `fastrand` call inside `random_duration`.  Returns the
updated coordinator and the sleep events performed. -/
def Downloader.sleep_until_ready (d : Downloader) (sample : Nat → Nat → Nat)
    (now : Nat) : Downloader × List Event :=
  match d.prev_download_start with
  | none => (d, [])
  | some prev =>
    let interval := random_duration sample d.min_interval d.max_interval
    let elapsed := now - prev
    let events := if elapsed < interval then [Event.intervalSleep (interval - elapsed)] else []
    ({ d with prev_download_start := none }, events)

-- ======================================================================
-- The retry loop of `RequestBuilder::send`

/-- The `loop` of `RequestBuilder::send`, as a function of
* `att i`: the result of `self.send_once()` on attempt number `i`
  (the HTTP exchange is external input, so any actual run is one such
  oracle);
* `clock i`: the `Instant::now()` stored into `prev_download_start` just
  before attempt `i`;
* `sampleR i lo hi`: the `fastrand::u64` draw for the retry delay taken
  after failed attempt `i`;
* `fuel`: an upper bound on the remaining iterations, only needed to make
  the definition total — `none` on fuel exhaustion or on an out-of-bounds
  `retry_delays[retry_count]` (the latter is how a Rust index panic is
  modelled; both are proved unreachable below).

Returns the `Result`, the list of events in order, and the final value of
`prev_download_start`. -/
def sendLoop (att : Nat → Except Err Bytes) (clock : Nat → Nat)
    (sampleR : Nat → Nat → Nat → Nat) (rds : List (Nat × Nat)) :
    Nat → Nat → List Err → Option (Except Err Bytes × List Event × Nat)
  | 0, _, _ => none
  | fuel + 1, retry_count, errors =>
    let now := clock retry_count
    match att retry_count with
    | .ok b => some (.ok b, [.setPrevStart now, .attempt retry_count], now)
    | .error e =>
      let errors := errors ++ [e]
      if retry_count = rds.length then
        some (.error (.downloadFailed errors), [.setPrevStart now, .attempt retry_count], now)
      else
        match rds.get? retry_count with
        | none => none
        | some (mn, mx) =>
          let dly := random_duration (sampleR retry_count) mn mx
          match sendLoop att clock sampleR rds fuel (retry_count + 1) errors with
          | none => none
          | some (res, tr, pf) =>
            some (res, .setPrevStart now :: .attempt retry_count :: .retrySleep retry_count dly :: tr, pf)

/-- `RequestBuilder::send`: calls `sleep_until_ready` once (with
`sampleI`/`now0` as its random draw and `Instant::now()`), then runs the
retry loop with fuel `retry_delays.length + 1` — precisely the number of
attempts a failing run makes.  Returns the `Result`, the events of the
whole call, and the final coordinator state; `none` models a panic or
divergence of the loop (proved unreachable). -/
def Downloader.send (d : Downloader) (att : Nat → Except Err Bytes)
    (clock : Nat → Nat) (sampleI : Nat → Nat → Nat)
    (sampleR : Nat → Nat → Nat → Nat) (now0 : Nat) :
    Option (Except Err Bytes × List Event × Downloader) :=
  let p := d.sleep_until_ready sampleI now0
  match sendLoop att clock sampleR p.1.retry_delays (p.1.retry_delays.length + 1) 0 [] with
  | none => none
  | some (res, tr, pf) =>
    some (res, p.2 ++ tr, { p.1 with prev_download_start := some pf })

-- ======================================================================
-- Descriptions of the loop's behaviour (used to state the theorems)

/-- The error of attempt `i` when it failed (dummy value on success). -/
def errAt (att : Nat → Except Err Bytes) (i : Nat) : Err :=
  match att i with
  | .error e => e
  | .ok _ => .downloadFailed []

/-- Did this attempt fail? -/
def isErr : Except Err Bytes → Bool
  | .error _ => true
  | .ok _ => false

/-- The retry delay sampled after failed attempt `i`
(`random_duration(retry_delays[i])`). -/
def delayAt (sampleR : Nat → Nat → Nat → Nat) (rds : List (Nat × Nat)) (i : Nat) : Nat :=
  match rds.get? i with
  | some (mn, mx) => random_duration (sampleR i) mn mx
  | none => 0

/-- The event pattern of `c` consecutive attempts starting at attempt
number `rc`: for each attempt, `prev_download_start` is set and the
attempt issued; every attempt but the last is followed by the retry sleep
for its index. -/
def attemptTrace (clock : Nat → Nat) (sampleR : Nat → Nat → Nat → Nat)
    (rds : List (Nat × Nat)) : Nat → Nat → List Event
  | _, 0 => []
  | rc, c + 1 =>
    Event.setPrevStart (clock rc) :: Event.attempt rc ::
      (if c = 0 then []
       else Event.retrySleep rc (delayAt sampleR rds rc) ::
         attemptTrace clock sampleR rds (rc + 1) c)

-- ======================================================================
-- Characterization of the retry loop

theorem attemptTrace_one (clock : Nat → Nat) (sampleR : Nat → Nat → Nat → Nat)
    (rds : List (Nat × Nat)) (rc : Nat) :
    attemptTrace clock sampleR rds rc 1 = [.setPrevStart (clock rc), .attempt rc] := by
  simp [attemptTrace]

theorem attemptTrace_succ (clock : Nat → Nat) (sampleR : Nat → Nat → Nat → Nat)
    (rds : List (Nat × Nat)) (rc c : Nat) (hc : c ≠ 0) :
    attemptTrace clock sampleR rds rc (c + 1) =
      .setPrevStart (clock rc) :: .attempt rc ::
        .retrySleep rc (delayAt sampleR rds rc) :: attemptTrace clock sampleR rds (rc + 1) c := by
  simp [attemptTrace, hc]

/-- One-step unfolding of the retry loop (on nonzero fuel). -/
theorem sendLoop_succ (att : Nat → Except Err Bytes) (clock : Nat → Nat)
    (sampleR : Nat → Nat → Nat → Nat) (rds : List (Nat × Nat))
    (fuel rc : Nat) (errors : List Err) :
    sendLoop att clock sampleR rds (fuel + 1) rc errors =
      (match att rc with
       | .ok b => some (.ok b, [.setPrevStart (clock rc), .attempt rc], clock rc)
       | .error e =>
         if rc = rds.length then
           some (.error (.downloadFailed (errors ++ [e])),
             [.setPrevStart (clock rc), .attempt rc], clock rc)
         else
           match rds.get? rc with
           | none => none
           | some (mn, mx) =>
             match sendLoop att clock sampleR rds fuel (rc + 1) (errors ++ [e]) with
             | none => none
             | some (res, tr, pf) =>
               some (res, .setPrevStart (clock rc) :: .attempt rc ::
                 .retrySleep rc (random_duration (sampleR rc) mn mx) :: tr, pf)) := rfl

/-- Complete characterization of the retry loop, by induction on the
remaining retries.  Starting at attempt `rc` with `n` retries left
(`rc + n = retry_delays.length`) and fuel `n + 1`, the loop terminates
without panicking, and either some attempt `k` succeeds — all earlier ones
having failed — returning its bytes with the corresponding event pattern,
or every attempt fails and the loop returns `DownloadFailed` carrying the
accumulated errors followed by one error per attempt in order.  In both
cases the final `prev_download_start` is the instant read before the last
attempt made. -/
theorem sendLoop_spec (att : Nat → Except Err Bytes) (clock : Nat → Nat)
    (sampleR : Nat → Nat → Nat → Nat) (rds : List (Nat × Nat)) :
    ∀ n rc errors, rc + n = rds.length →
    (∃ k b, rc ≤ k ∧ k ≤ rds.length ∧ att k = .ok b ∧
       (∀ i, rc ≤ i → i < k → isErr (att i) = true) ∧
       sendLoop att clock sampleR rds (n + 1) rc errors =
         some (.ok b, attemptTrace clock sampleR rds rc (k + 1 - rc), clock k))
    ∨ ((∀ i, rc ≤ i → i ≤ rds.length → isErr (att i) = true) ∧
       sendLoop att clock sampleR rds (n + 1) rc errors =
         some (.error (.downloadFailed (errors ++ (List.range' rc (n + 1)).map (errAt att))),
           attemptTrace clock sampleR rds rc (n + 1), clock rds.length)) := by
  intro n
  induction n with
  | zero =>
    intro rc errors hrc
    simp only [Nat.add_zero] at hrc
    subst hrc
    cases h : att rds.length with
    | ok b =>
      refine Or.inl ⟨rds.length, b, Nat.le_refl _, Nat.le_refl _, h, by omega, ?_⟩
      have h1 : rds.length + 1 - rds.length = 1 := by omega
      rw [sendLoop_succ, h1, attemptTrace_one]
      simp [h]
    | error e =>
      refine Or.inr ⟨?_, ?_⟩
      · intro i hi1 hi2
        have hi : i = rds.length := by omega
        rw [hi]
        simp [isErr, h]
      · rw [sendLoop_succ, attemptTrace_one]
        simp [h, errAt, List.range'_one]
  | succ n ih =>
    intro rc errors hrc
    cases h : att rc with
    | ok b =>
      refine Or.inl ⟨rc, b, Nat.le_refl _, by omega, h, by omega, ?_⟩
      have h1 : rc + 1 - rc = 1 := by omega
      rw [sendLoop_succ, h1, attemptTrace_one]
      simp [h]
    | error e =>
      have hlt : rc < rds.length := by omega
      have hne : ¬ rc = rds.length := by omega
      obtain ⟨⟨mn, mx⟩, hget⟩ : ∃ p, rds[rc]? = some p := ⟨_, List.getElem?_eq_getElem hlt⟩
      have hdly : delayAt sampleR rds rc = random_duration (sampleR rc) mn mx := by
        simp [delayAt, hget]
      rcases ih (rc + 1) (errors ++ [e]) (by omega) with
        ⟨k, b, hk1, hk2, hka, hkerr, heq⟩ | ⟨herr, heq⟩
      · refine Or.inl ⟨k, b, by omega, hk2, hka, ?_, ?_⟩
        · intro i hi1 hi2
          rcases Nat.eq_or_lt_of_le hi1 with hi | hi
          · rw [← hi]
            simp [isErr, h]
          · exact hkerr i hi hi2
        · have hc : k - rc ≠ 0 := by omega
          have hc1 : k + 1 - rc = (k - rc) + 1 := by omega
          have hc2 : k + 1 - (rc + 1) = k - rc := by omega
          rw [hc2] at heq
          rw [sendLoop_succ, hc1, attemptTrace_succ _ _ _ _ _ hc, hdly]
          simp [h, hne, hget, heq]
      · refine Or.inr ⟨?_, ?_⟩
        · intro i hi1 hi2
          rcases Nat.eq_or_lt_of_le hi1 with hi | hi
          · rw [← hi]
            simp [isErr, h]
          · exact herr i hi hi2
        · have hrange : List.range' rc (n + 1 + 1) = rc :: List.range' (rc + 1) (n + 1) :=
            List.range'_succ rc (n + 1) 1
          have herrs : (errors ++ [e]) ++ (List.range' (rc + 1) (n + 1)).map (errAt att) =
              errors ++ (List.range' rc (n + 1 + 1)).map (errAt att) := by
            rw [hrange]
            simp [errAt, h]
          rw [herrs] at heq
          rw [sendLoop_succ, attemptTrace_succ _ _ _ _ _ (Nat.succ_ne_zero n), hdly]
          simp [h, hne, hget, heq]

-- ======================================================================
-- Facts about the event patterns

theorem mem_attempt_attemptTrace (clock : Nat → Nat) (sampleR : Nat → Nat → Nat → Nat)
    (rds : List (Nat × Nat)) :
    ∀ c rc i, Event.attempt i ∈ attemptTrace clock sampleR rds rc c ↔ rc ≤ i ∧ i < rc + c := by
  intro c
  induction c with
  | zero => intro rc i; simp [attemptTrace]
  | succ c ih =>
    intro rc i
    by_cases hc : c = 0
    · subst hc
      simp [attemptTrace]
      omega
    · simp [attemptTrace, hc, ih (rc + 1) i]
      omega

theorem intervalSleep_not_mem_attemptTrace (clock : Nat → Nat)
    (sampleR : Nat → Nat → Nat → Nat) (rds : List (Nat × Nat)) :
    ∀ c rc dur, Event.intervalSleep dur ∉ attemptTrace clock sampleR rds rc c := by
  intro c
  induction c with
  | zero => intro rc dur; simp [attemptTrace]
  | succ c ih =>
    intro rc dur
    by_cases hc : c = 0
    · subst hc; simp [attemptTrace]
    · simp [attemptTrace, hc]
      exact ih (rc + 1) dur

theorem attemptTrace_decomp (clock : Nat → Nat) (sampleR : Nat → Nat → Nat → Nat)
    (rds : List (Nat × Nat)) :
    ∀ c rc i, rc ≤ i → i < rc + c →
      ∃ l1 l2, attemptTrace clock sampleR rds rc c =
        l1 ++ Event.setPrevStart (clock i) :: Event.attempt i :: l2 := by
  intro c
  induction c with
  | zero => intro rc i h1 h2; omega
  | succ c ih =>
    intro rc i h1 h2
    rcases Nat.eq_or_lt_of_le h1 with hi | hi
    · subst hi
      by_cases hc : c = 0
      · subst hc
        exact ⟨[], [], by simp [attemptTrace]⟩
      · refine ⟨[], Event.retrySleep rc (delayAt sampleR rds rc) ::
          attemptTrace clock sampleR rds (rc + 1) c, ?_⟩
        simp [attemptTrace, hc]
    · have hc : c ≠ 0 := by omega
      obtain ⟨l1, l2, hl⟩ := ih (rc + 1) i hi (by omega)
      refine ⟨Event.setPrevStart (clock rc) :: Event.attempt rc ::
        Event.retrySleep rc (delayAt sampleR rds rc) :: l1, l2, ?_⟩
      simp [attemptTrace, hc, hl]

theorem attemptTrace_ne_nil (clock : Nat → Nat) (sampleR : Nat → Nat → Nat → Nat)
    (rds : List (Nat × Nat)) (rc c : Nat) (hc : c ≠ 0) :
    attemptTrace clock sampleR rds rc c ≠ [] := by
  cases c with
  | zero => exact absurd rfl hc
  | succ c => simp [attemptTrace]

theorem attemptTrace_getLast (clock : Nat → Nat) (sampleR : Nat → Nat → Nat → Nat)
    (rds : List (Nat × Nat)) :
    ∀ c rc, c ≠ 0 →
      (attemptTrace clock sampleR rds rc c).getLast? = some (Event.attempt (rc + c - 1)) := by
  intro c
  induction c with
  | zero => intro rc hc; exact absurd rfl hc
  | succ c ih =>
    intro rc _
    by_cases hc : c = 0
    · subst hc
      simp [attemptTrace]
    · rw [attemptTrace_succ _ _ _ _ _ hc, List.getLast?_cons_cons, List.getLast?_cons_cons]
      obtain ⟨c', rfl⟩ : ∃ c', c = c' + 1 := ⟨c - 1, by omega⟩
      rw [show attemptTrace clock sampleR rds (rc + 1) (c' + 1) =
        Event.setPrevStart (clock (rc + 1)) :: Event.attempt (rc + 1) ::
          (if c' = 0 then []
           else Event.retrySleep (rc + 1) (delayAt sampleR rds (rc + 1)) ::
             attemptTrace clock sampleR rds (rc + 1 + 1) c') from rfl]
      rw [List.getLast?_cons_cons]
      rw [show Event.setPrevStart (clock (rc + 1)) :: Event.attempt (rc + 1) ::
          (if c' = 0 then []
           else Event.retrySleep (rc + 1) (delayAt sampleR rds (rc + 1)) ::
             attemptTrace clock sampleR rds (rc + 1 + 1) c') =
        attemptTrace clock sampleR rds (rc + 1) (c' + 1) from rfl]
      rw [ih (rc + 1) (by omega)]
      congr 2
      omega

-- ======================================================================
-- Facts about `sleep_until_ready` and the unfolding of `send`

theorem sleep_until_ready_fst (d : Downloader) (sample : Nat → Nat → Nat) (now : Nat) :
    (d.sleep_until_ready sample now).1 = { d with prev_download_start := none } := by
  cases hd : d.prev_download_start with
  | none => cases d; simp_all [Downloader.sleep_until_ready]
  | some prev => simp [Downloader.sleep_until_ready, hd]

theorem attempt_not_mem_sleep_snd (d : Downloader) (sample : Nat → Nat → Nat) (now i : Nat) :
    Event.attempt i ∉ (d.sleep_until_ready sample now).2 := by
  cases hd : d.prev_download_start with
  | none => simp [Downloader.sleep_until_ready, hd]
  | some prev =>
    simp only [Downloader.sleep_until_ready, hd]
    split <;> simp

theorem sleep_snd_of_none (d : Downloader) (sample : Nat → Nat → Nat) (now : Nat)
    (hd : d.prev_download_start = none) : (d.sleep_until_ready sample now).2 = [] := by
  simp [Downloader.sleep_until_ready, hd]

/-- Unfolding of `Downloader.send` through `sleep_until_ready`. -/
theorem send_eq (d : Downloader) (att : Nat → Except Err Bytes) (clock : Nat → Nat)
    (sampleI : Nat → Nat → Nat) (sampleR : Nat → Nat → Nat → Nat) (now0 : Nat) :
    d.send att clock sampleI sampleR now0 =
      match sendLoop att clock sampleR d.retry_delays (d.retry_delays.length + 1) 0 [] with
      | none => none
      | some (res, tr, pf) =>
        some (res, (d.sleep_until_ready sampleI now0).2 ++ tr,
          { d with prev_download_start := some pf }) := by
  have h1 := sleep_until_ready_fst d sampleI now0
  simp only [Downloader.send, h1]

theorem eq_error_of_isErr (att : Nat → Except Err Bytes) (i : Nat)
    (h : isErr (att i) = true) : att i = .error (errAt att i) := by
  cases h' : att i with
  | ok b => rw [h'] at h; simp [isErr] at h
  | error e => simp [errAt, h']

/-- Shape of a full `send` trace: the last attempt has the largest attempt
number, and every attempt is immediately preceded by the store into
`prev_download_start` of the instant read for it. -/
theorem send_trace_shape (clock : Nat → Nat) (sampleR : Nat → Nat → Nat → Nat)
    (rds : List (Nat × Nat)) (p2 : List Event) (hp2 : ∀ i, Event.attempt i ∉ p2)
    (k : Nat) (tr : List Event)
    (htr : tr = p2 ++ attemptTrace clock sampleR rds 0 (k + 1)) :
    Event.attempt k ∈ tr ∧ (∀ i, Event.attempt i ∈ tr → i ≤ k) ∧
      (∀ i, Event.attempt i ∈ tr →
        ∃ l1 l2, tr = l1 ++ Event.setPrevStart (clock i) :: Event.attempt i :: l2) := by
  subst htr
  refine ⟨?_, ?_, ?_⟩
  · rw [List.mem_append, mem_attempt_attemptTrace]
    right
    omega
  · intro i hi
    rw [List.mem_append] at hi
    rcases hi with hi | hi
    · exact absurd hi (hp2 i)
    · rw [mem_attempt_attemptTrace] at hi
      omega
  · intro i hi
    rw [List.mem_append] at hi
    rcases hi with hi | hi
    · exact absurd hi (hp2 i)
    · rw [mem_attempt_attemptTrace] at hi
      obtain ⟨l1, l2, hl⟩ := attemptTrace_decomp clock sampleR rds (k + 1) 0 i (by omega) (by omega)
      exact ⟨p2 ++ l1, l2, by rw [hl, List.append_assoc]⟩

-- ======================================================================
-- C1

/-- **C1.** For every call to `send` that ends in failure, the result is a
single `DownloadFailed` error containing exactly `R + 1` sub-errors (where
`R` is the length of `retry_delays`), one per attempt in the order the
attempts occurred; single-attempt errors are never returned directly (the
returned error is always the `DownloadFailed` envelope), and even with an
empty `retry_delays` the single sub-error is still wrapped. -/
theorem send_failed_wraps_all_attempts (d : Downloader) (att : Nat → Except Err Bytes)
    (clock : Nat → Nat) (sampleI : Nat → Nat → Nat) (sampleR : Nat → Nat → Nat → Nat)
    (now0 : Nat) (err : Err) (tr : List Event) (d' : Downloader)
    (h : d.send att clock sampleI sampleR now0 = some (.error err, tr, d')) :
    ∃ es : List Err, err = .downloadFailed es ∧ es.length = d.retry_delays.length + 1 ∧
      ∀ i (hi : i < es.length), att i = .error (es.get ⟨i, hi⟩) := by
  rcases sendLoop_spec att clock sampleR d.retry_delays d.retry_delays.length 0 []
      (by omega) with ⟨k, b, _, _, _, _, heq⟩ | ⟨herr, heq⟩
  · rw [send_eq, heq] at h
    simp at h
  · rw [send_eq, heq] at h
    simp only [List.nil_append, Option.some.injEq, Prod.mk.injEq, Except.error.injEq] at h
    refine ⟨(List.range' 0 (d.retry_delays.length + 1)).map (errAt att), h.1.symm, ?_, ?_⟩
    · simp
    · intro i hi
      simp only [List.length_map, List.length_range'] at hi
      have h1 : ((List.range' 0 (d.retry_delays.length + 1)).map (errAt att)).get
          ⟨i, by simpa using hi⟩ = errAt att i := by
        simp [List.get_eq_getElem, List.getElem_map, List.getElem_range']
      rw [h1]
      exact eq_error_of_isErr att i (herr i (Nat.zero_le i) (by omega))

-- ======================================================================
-- C5

/-- **C5.** After every completed `send` call, whether it succeeded or
failed, `prev_download_start` is set and holds the timestamp recorded
immediately before the last attempt of that call (not the first), and it
is updated strictly before each attempt is issued: each `attempt i` event
is immediately preceded in the trace by the store of the instant read for
attempt `i`. -/
theorem send_sets_prev_to_last_attempt (d : Downloader) (att : Nat → Except Err Bytes)
    (clock : Nat → Nat) (sampleI : Nat → Nat → Nat) (sampleR : Nat → Nat → Nat → Nat)
    (now0 : Nat) (res : Except Err Bytes) (tr : List Event) (d' : Downloader)
    (h : d.send att clock sampleI sampleR now0 = some (res, tr, d')) :
    ∃ k, d'.prev_download_start = some (clock k) ∧ Event.attempt k ∈ tr ∧
      (∀ i, Event.attempt i ∈ tr → i ≤ k) ∧
      (∀ i, Event.attempt i ∈ tr →
        ∃ l1 l2, tr = l1 ++ Event.setPrevStart (clock i) :: Event.attempt i :: l2) := by
  rcases sendLoop_spec att clock sampleR d.retry_delays d.retry_delays.length 0 []
      (by omega) with ⟨k, b, _, _, _, _, heq⟩ | ⟨_, heq⟩
  · rw [send_eq, heq] at h
    simp only [Option.some.injEq, Prod.mk.injEq] at h
    obtain ⟨_, htr, hd'⟩ := h
    refine ⟨k, by rw [← hd'], ?_⟩
    have hk1 : k + 1 - 0 = k + 1 := by omega
    rw [hk1] at htr
    exact send_trace_shape clock sampleR d.retry_delays _
      (fun i => attempt_not_mem_sleep_snd d sampleI now0 i) k tr htr.symm
  · rw [send_eq, heq] at h
    simp only [Option.some.injEq, Prod.mk.injEq] at h
    obtain ⟨_, htr, hd'⟩ := h
    refine ⟨d.retry_delays.length, by rw [← hd'], ?_⟩
    exact send_trace_shape clock sampleR d.retry_delays _
      (fun i => attempt_not_mem_sleep_snd d sampleI now0 i) d.retry_delays.length tr htr.symm

-- ======================================================================
-- C7

/-- **C7.** Within every single `send` call, the observable order of
events is: the interval wait (the events of the one `sleep_until_ready`
call), then attempt 0, then for each subsequent attempt `i` the delay
sampled from `retry_delays[i-1]` followed by attempt `i` (this alternation
is the definition of `attemptTrace`), until success or exhaustion; the
last event is the final attempt, so no retry delay occurs after the final
failed attempt. -/
theorem send_event_order (d : Downloader) (att : Nat → Except Err Bytes)
    (clock : Nat → Nat) (sampleI : Nat → Nat → Nat) (sampleR : Nat → Nat → Nat → Nat)
    (now0 : Nat) (res : Except Err Bytes) (tr : List Event) (d' : Downloader)
    (h : d.send att clock sampleI sampleR now0 = some (res, tr, d')) :
    ∃ k, k ≤ d.retry_delays.length ∧
      tr = (d.sleep_until_ready sampleI now0).2 ++
        attemptTrace clock sampleR d.retry_delays 0 (k + 1) ∧
      tr.getLast? = some (Event.attempt k) := by
  rcases sendLoop_spec att clock sampleR d.retry_delays d.retry_delays.length 0 []
      (by omega) with ⟨k, b, _, hk2, _, _, heq⟩ | ⟨_, heq⟩
  · rw [send_eq, heq] at h
    simp only [Option.some.injEq, Prod.mk.injEq] at h
    obtain ⟨_, htr, _⟩ := h
    have hk1 : k + 1 - 0 = k + 1 := by omega
    rw [hk1] at htr
    refine ⟨k, hk2, htr.symm, ?_⟩
    rw [← htr, List.getLast?_append_of_ne_nil _
      (attemptTrace_ne_nil clock sampleR d.retry_delays 0 (k + 1) (Nat.succ_ne_zero k)),
      attemptTrace_getLast clock sampleR d.retry_delays (k + 1) 0 (Nat.succ_ne_zero k)]
    congr 2
    omega
  · rw [send_eq, heq] at h
    simp only [Option.some.injEq, Prod.mk.injEq] at h
    obtain ⟨_, htr, _⟩ := h
    refine ⟨d.retry_delays.length, Nat.le_refl _, htr.symm, ?_⟩
    rw [← htr, List.getLast?_append_of_ne_nil _
      (attemptTrace_ne_nil clock sampleR d.retry_delays 0 (d.retry_delays.length + 1)
        (Nat.succ_ne_zero _)),
      attemptTrace_getLast clock sampleR d.retry_delays (d.retry_delays.length + 1) 0
        (Nat.succ_ne_zero _)]
    congr 2
    omega

-- ======================================================================
-- C6

/-- **C6.** If `prev_download_start` is set, `sleep_until_ready` samples a
random interval `I` in `[min_interval, max_interval]` (the
`random_duration` draw), blocks for `I` minus the elapsed time since
`prev_download_start` when that elapsed time is less than `I`, and
afterwards clears `prev_download_start`; consequently the next `send` on
the resulting coordinator performs no interval wait at all (its trace
contains no interval-sleep event, so in particular none before its first
attempt). -/
theorem sleep_until_ready_clears_and_next_send_immediate (d : Downloader)
    (sampleI : Nat → Nat → Nat) (now prev : Nat)
    (h : d.prev_download_start = some prev) :
    (d.sleep_until_ready sampleI now).1 = { d with prev_download_start := none } ∧
    (d.sleep_until_ready sampleI now).2 =
      (if now - prev < random_duration sampleI d.min_interval d.max_interval
       then [Event.intervalSleep
         (random_duration sampleI d.min_interval d.max_interval - (now - prev))]
       else []) ∧
    (∀ att clock sampleI2 sampleR now2 res tr d2,
       Downloader.send (d.sleep_until_ready sampleI now).1 att clock sampleI2 sampleR now2 =
         some (res, tr, d2) →
       ∀ dur, Event.intervalSleep dur ∉ tr) := by
  refine ⟨sleep_until_ready_fst d sampleI now, ?_, ?_⟩
  · simp [Downloader.sleep_until_ready, h]
  · intro att clock sampleI2 sampleR now2 res tr d2 h2 dur
    rw [sleep_until_ready_fst d sampleI now] at h2
    set d1 : Downloader := { d with prev_download_start := none } with hd1
    have hnone : d1.prev_download_start = none := rfl
    rcases sendLoop_spec att clock sampleR d1.retry_delays d1.retry_delays.length 0 []
        (by omega) with ⟨k, b, _, _, _, _, heq⟩ | ⟨_, heq⟩ <;>
      rw [send_eq, heq] at h2 <;>
      simp only [Option.some.injEq, Prod.mk.injEq] at h2 <;>
      obtain ⟨_, htr, _⟩ := h2 <;>
      rw [← htr, sleep_snd_of_none d1 sampleI2 now2 hnone, List.nil_append] <;>
      exact intervalSleep_not_mem_attemptTrace clock sampleR d1.retry_delays _ 0 dur

-- ======================================================================
-- C10

/-- **C10.** The retry loop of `send` never panics: in the model, out-of-
bounds indexing of `retry_delays[retry_count]` and fuel exhaustion are
both mapped to `none`, and `send` always returns `some` result for every
retry schedule (including the empty one), every attempt oracle and every
initial state — so the index access is always in bounds whenever it is
evaluated. -/
theorem send_never_panics (d : Downloader) (att : Nat → Except Err Bytes)
    (clock : Nat → Nat) (sampleI : Nat → Nat → Nat) (sampleR : Nat → Nat → Nat → Nat)
    (now0 : Nat) :
    ∃ r, d.send att clock sampleI sampleR now0 = some r := by
  rcases sendLoop_spec att clock sampleR d.retry_delays d.retry_delays.length 0 []
      (by omega) with ⟨k, b, _, _, _, _, heq⟩ | ⟨_, heq⟩ <;>
    rw [send_eq, heq] <;> exact ⟨_, rfl⟩

-- ======================================================================
-- Witnesses for the loop-level theorems

/-- Witness for `send_failed_wraps_all_attempts`: empty retry schedule,
every attempt answering 500. -/
theorem send_failed_wraps_all_attempts_witness :
    ∃ es : List Err, Err.downloadFailed [Err.statusNotOk 500] = .downloadFailed es ∧
      es.length = 1 ∧
      ∀ i (hi : i < es.length),
        (fun _ : Nat => (Except.error (Err.statusNotOk 500) : Except Err Bytes)) i =
          .error (es.get ⟨i, hi⟩) :=
  send_failed_wraps_all_attempts ⟨0, 0, [], none⟩
    (fun _ => .error (.statusNotOk 500)) (fun _ => 0) (fun _ _ => 0) (fun _ _ _ => 0) 0
    (.downloadFailed [.statusNotOk 500]) [.setPrevStart 0, .attempt 0] ⟨0, 0, [], some 0⟩ rfl

/-- Witness for `send_sets_prev_to_last_attempt`: a send succeeding on its
first attempt. -/
theorem send_sets_prev_to_last_attempt_witness :
    ∃ k, (Downloader.mk 0 0 [] (some 0)).prev_download_start = some 0 ∧
      Event.attempt k ∈ [Event.setPrevStart 0, Event.attempt 0] ∧
      (∀ i, Event.attempt i ∈ [Event.setPrevStart 0, Event.attempt 0] → i ≤ k) ∧
      (∀ i, Event.attempt i ∈ [Event.setPrevStart 0, Event.attempt 0] →
        ∃ l1 l2, [Event.setPrevStart 0, Event.attempt 0] =
          l1 ++ Event.setPrevStart 0 :: Event.attempt i :: l2) :=
  send_sets_prev_to_last_attempt ⟨0, 0, [], none⟩ (fun _ => .ok [42]) (fun _ => 0)
    (fun _ _ => 0) (fun _ _ _ => 0) 0 (.ok [42]) [.setPrevStart 0, .attempt 0]
    ⟨0, 0, [], some 0⟩ rfl

/-- Witness for `send_event_order`: a send succeeding on its first
attempt. -/
theorem send_event_order_witness :
    ∃ k, k ≤ (Downloader.mk 0 0 [] none).retry_delays.length ∧
      [Event.setPrevStart 0, Event.attempt 0] =
        ((Downloader.mk 0 0 [] none).sleep_until_ready (fun _ _ => 0) 0).2 ++
          attemptTrace (fun _ => 0) (fun _ _ _ => 0) [] 0 (k + 1) ∧
      ([Event.setPrevStart 0, Event.attempt 0] : List Event).getLast? =
        some (Event.attempt k) :=
  send_event_order ⟨0, 0, [], none⟩ (fun _ => .ok [42]) (fun _ => 0) (fun _ _ => 0)
    (fun _ _ _ => 0) 0 (.ok [42]) [.setPrevStart 0, .attempt 0] ⟨0, 0, [], some 0⟩ rfl

/-- Witness for `sleep_until_ready_clears_and_next_send_immediate`: a
coordinator with zero intervals whose previous download started at the
current instant. -/
theorem sleep_until_ready_clears_witness :
    ((Downloader.mk 0 0 [] (some 5)).sleep_until_ready (fun lo _ => lo) 5).1 =
      Downloader.mk 0 0 [] none ∧
    ((Downloader.mk 0 0 [] (some 5)).sleep_until_ready (fun lo _ => lo) 5).2 = [] ∧
    (∀ att clock sampleI2 sampleR now2 res tr d2,
      Downloader.send (Downloader.mk 0 0 [] none) att clock sampleI2 sampleR now2 =
        some (res, tr, d2) →
      ∀ dur, Event.intervalSleep dur ∉ tr) :=
  sleep_until_ready_clears_and_next_send_immediate ⟨0, 0, [], some 5⟩ (fun lo _ => lo) 5 5 rfl

-- ======================================================================
-- C2

/-- **C2.** For every single attempt, if the HTTP response status is
anything other than 200 (including other 2xx, exposed 3xx, and all
4xx/5xx), the attempt fails with `StatusNotOk` carrying the observed
status; the result is the same for every body outcome and every attached
digest, and the digest state is left untouched — the body is neither read
nor digest-checked, and a non-200 response is never a success. -/
theorem send_once_non_ok (hashSt : Option (Bytes × DynDigest)) (status : Nat)
    (body : Except Nat Bytes) (h : status ≠ 200) :
    send_once hashSt (.response status body) =
      some (.error (.statusNotOk status), hashSt) := by
  simp [send_once, h]

/-- Witness for `send_once_non_ok` at status 404. -/
theorem send_once_non_ok_witness :
    send_once none (.response 404 (.ok [])) = some (.error (.statusNotOk 404), none) :=
  send_once_non_ok none 404 (.ok []) (by decide)

-- ======================================================================
-- C3

/-- The hash-checking path of `send_once` in closed form: on a 200
response whose body was fully read and with a digest attached, the digest
is reset, fed the whole body, finalized (into the `output_size`-byte
buffer) and hex-encoded in lowercase; the result is compared with the
stored expected string; mismatch yields `HashMismatch` with both strings,
match yields the body bytes.  The digest comes out reset. -/
theorem send_once_hash_eq (expected : Bytes) (d : DynDigest) (bytes : Bytes) :
    send_once (some (expected, d)) (.response 200 (.ok bytes)) =
      some ((if hexEncode (d.hashFn bytes) ≠ expected
             then .error (.hashMismatch (hexEncode (d.hashFn bytes)) expected)
             else .ok bytes),
            some (expected, { d with absorbed := [] })) := by
  simp only [send_once, DynDigest.reset, DynDigest.update, DynDigest.finalize_into_reset,
    List.nil_append, List.length_replicate, ne_eq, ite_not]
  norm_num
  split <;> rfl

/-- **C3.** For every attempt with an attached expected digest and a 200
response whose body was fully read: the digest is reset, fed the whole
body, finalized into a buffer of `output_size` bytes, hex-encoded in
lowercase, and compared byte-for-byte with the stored (already lowercased)
expected string; on mismatch the attempt fails with `HashMismatch`
carrying both the got and expected strings, and on match the attempt
succeeds returning the body bytes.  Because of the reset, the outcome is
independent of whatever the digest had absorbed on previous attempts. -/
theorem send_once_digest_check (expected : Bytes) (d : DynDigest) (bytes : Bytes) :
    send_once (some (expected, d)) (.response 200 (.ok bytes)) =
      some ((if hexEncode (d.hashFn bytes) ≠ expected
             then .error (.hashMismatch (hexEncode (d.hashFn bytes)) expected)
             else .ok bytes),
            some (expected, { d with absorbed := [] })) ∧
    (∀ a1 a2 : Bytes,
      send_once (some (expected, { d with absorbed := a1 })) (.response 200 (.ok bytes)) =
        send_once (some (expected, { d with absorbed := a2 })) (.response 200 (.ok bytes))) :=
  ⟨send_once_hash_eq expected d bytes,
   fun a1 a2 => by
    rw [send_once_hash_eq expected { d with absorbed := a1 } bytes,
      send_once_hash_eq expected { d with absorbed := a2 } bytes]⟩

-- ======================================================================
-- C8

theorem toLowerByte_toUpperByte (b : Nat) :
    toLowerByte (toUpperByte b) = toLowerByte (toLowerByte b) := by
  simp only [toLowerByte, toUpperByte]
  split_ifs <;> omega

/-- **C8.** Attaching an expected digest is case-insensitive: for every
digest `d` and hex string `s`, `hash` applied to the uppercase and to the
lowercase form of `s` produces identical request builders, because the
expected string is normalized to lowercase at attach time. -/
theorem hash_is_case_insensitive (rb : RequestBuilder) (s : Bytes) (d : DynDigest)
    (hhex : s.all isHexByte = true) :
    rb.hash (toUppercase s) d = rb.hash (toLowercase s) d := by
  have key : toLowercase (toUppercase s) = toLowercase (toLowercase s) := by
    simp only [toLowercase, toUppercase, List.map_map]
    exact List.map_congr_left fun b _ => toLowerByte_toUpperByte b
  simp [RequestBuilder.hash, key]

/-- Witness for `hash_is_case_insensitive` on the hex string `"aB1"`. -/
theorem hash_is_case_insensitive_witness :
    RequestBuilder.hash ⟨none⟩ (toUppercase [97, 66, 49]) (DynDigest.mk 0 (fun _ => []) []) =
      RequestBuilder.hash ⟨none⟩ (toLowercase [97, 66, 49]) (DynDigest.mk 0 (fun _ => []) []) :=
  hash_is_case_insensitive ⟨none⟩ [97, 66, 49] (DynDigest.mk 0 (fun _ => []) []) (by decide)

-- ======================================================================
-- C4

/-- **C4 (counterexample).** `random_duration` does not always return a
value in the inclusive range `[min, max]`: for `min = max = 1500` ns
(1.5 µs) and any in-range sampler, the truncation of `as_micros` makes it
return 1000 ns, which is below `min` (and not equal to `min = max`). -/
theorem random_duration_below_min_cex :
    SampleInRange (fun lo _ => lo) ∧
    random_duration (fun lo _ => lo) 1500 1500 = 1000 ∧
    ¬ 1500 ≤ random_duration (fun lo _ => lo) 1500 1500 :=
  ⟨fun lo _ h => ⟨Nat.le_refl lo, h⟩, rfl, by decide⟩

/-- **C4 (amended).** For every pair of durations `min ≤ max` below
`2 ^ 64` microseconds (where the source's `u128 → u64` cast is lossless)
and every sampler meeting the `fastrand` contract, `random_duration`
returns a duration in the inclusive range
`[min rounded down to whole microseconds, max rounded down to whole
microseconds]` — in particular never exceeding `max`; in the degenerate
case `min = max` it returns exactly `min` rounded down to whole
microseconds (exactly `min` whenever `min` is a whole number of
microseconds), and `min = max = 0` returns zero. -/
theorem random_duration_truncated_range (sample : Nat → Nat → Nat) (mn mx : Nat)
    (hs : SampleInRange sample) (h1 : mn ≤ mx) (h2 : mx / 1000 < 2 ^ 64) :
    1000 * (mn / 1000) ≤ random_duration sample mn mx ∧
    random_duration sample mn mx ≤ 1000 * (mx / 1000) ∧
    random_duration sample mn mx ≤ mx ∧
    (mn = mx → random_duration sample mn mx = 1000 * (mn / 1000)) ∧
    (mn = 0 ∧ mx = 0 → random_duration sample mn mx = 0) := by
  have hle : mn / 1000 ≤ mx / 1000 := Nat.div_le_div_right h1
  have hmn : mn / 1000 % 2 ^ 64 = mn / 1000 := Nat.mod_eq_of_lt (by omega)
  have hmx : mx / 1000 % 2 ^ 64 = mx / 1000 := Nat.mod_eq_of_lt h2
  obtain ⟨hlo, hhi⟩ := hs (mn / 1000) (mx / 1000) hle
  unfold random_duration
  rw [hmn, hmx]
  refine ⟨Nat.mul_le_mul_left _ hlo, Nat.mul_le_mul_left _ hhi, ?_, ?_, ?_⟩
  · calc 1000 * sample (mn / 1000) (mx / 1000) ≤ 1000 * (mx / 1000) :=
        Nat.mul_le_mul_left _ hhi
      _ = mx / 1000 * 1000 := Nat.mul_comm _ _
      _ ≤ mx := Nat.div_mul_le_self mx 1000
  · intro he
    subst he
    have h := hs (mn / 1000) (mn / 1000) (Nat.le_refl _)
    omega
  · rintro ⟨rfl, h0⟩
    rw [Nat.zero_div]
    have h := hs 0 (mx / 1000) (Nat.zero_le _)
    omega

/-- Witness for `random_duration_truncated_range` at `min = 2000` ns,
`max = 3000` ns with the sampler returning the low end. -/
theorem random_duration_truncated_range_witness :
    1000 * (2000 / 1000) ≤ random_duration (fun lo _ => lo) 2000 3000 ∧
    random_duration (fun lo _ => lo) 2000 3000 ≤ 1000 * (3000 / 1000) ∧
    random_duration (fun lo _ => lo) 2000 3000 ≤ 3000 ∧
    (2000 = 3000 → random_duration (fun lo _ => lo) 2000 3000 = 1000 * (2000 / 1000)) ∧
    (2000 = 0 ∧ 3000 = 0 → random_duration (fun lo _ => lo) 2000 3000 = 0) :=
  random_duration_truncated_range (fun lo _ => lo) 2000 3000
    (fun lo _ h => ⟨Nat.le_refl lo, h⟩) (by decide) (by decide)

-- ======================================================================
-- DownloaderBuilder (src/lib.rs, `struct DownloaderBuilder`)

/-- Maximum number of nanoseconds representable by `std::time::Duration`
(`u64::MAX` seconds plus `999_999_999` nanoseconds). -/
def MAX_DURATION_NANOS : Nat := (2 ^ 64 - 1) * 1000000000 + 999999999

/-- `Duration::from_secs_f32`, with the `f32` seconds value modelled as an
exact rational: fails (a Rust panic) on negative values and on values
whose nanosecond count overflows `Duration`; otherwise rounds to the
nearest nanosecond.  (The tie-breaking convention of the rounding is
immaterial to every claim; NaN and infinities, which also panic in Rust,
have no rational counterpart.) -/
def duration_from_secs (q : ℚ) : Option Nat :=
  if q < 0 ∨ (MAX_DURATION_NANOS : ℤ) < round (q * 1000000000) then none
  else some (round (q * 1000000000)).toNat

/-- A seconds value accepted by `Duration::from_secs_f32`: non-negative
and within the `Duration` range. -/
def Representable (q : ℚ) : Prop :=
  0 ≤ q ∧ round (q * 1000000000) ≤ (MAX_DURATION_NANOS : ℤ)

/-- The builder state (`struct DownloaderBuilder`); the `client_builder`
field is an external collaborator and not part of the state. -/
structure DownloaderBuilder where
  /-- `min_interval` (nanoseconds). -/
  min_interval : Nat
  /-- `max_interval` (nanoseconds). -/
  max_interval : Nat
  /-- `retry_delays` (nanoseconds). -/
  retry_delays : List (Nat × Nat)

/-- `DownloaderBuilder::new` (also `Downloader::builder`): zero intervals,
empty retry schedule. -/
def DownloaderBuilder.new : DownloaderBuilder := ⟨0, 0, []⟩

/-- `DownloaderBuilder::interval(min, max)`: `assert!(min <= max)`, then
converts both seconds values to durations.  `none` models a panic, of the
assert or of `from_secs_f32`. -/
def DownloaderBuilder.interval (b : DownloaderBuilder) (mn mx : ℚ) :
    Option DownloaderBuilder :=
  if mn ≤ mx then
    match duration_from_secs mn, duration_from_secs mx with
    | some dmn, some dmx => some { b with min_interval := dmn, max_interval := dmx }
    | _, _ => none
  else none

/-- The conversion loop of `DownloaderBuilder::retry_delays`: for each
pair, `assert!(min <= max)` and conversion of both seconds values.
`none` models a panic. -/
def convertDelays : List (ℚ × ℚ) → Option (List (Nat × Nat))
  | [] => some []
  | (mn, mx) :: rest =>
    if mn ≤ mx then
      match duration_from_secs mn, duration_from_secs mx with
      | some dmn, some dmx =>
        match convertDelays rest with
        | some v => some ((dmn, dmx) :: v)
        | none => none
      | _, _ => none
    else none

/-- `DownloaderBuilder::retry_delays` (a top-level function here only
because the builder's field of the same name occupies the name). -/
def retry_delays (b : DownloaderBuilder) (rds : List (ℚ × ℚ)) :
    Option DownloaderBuilder :=
  match convertDelays rds with
  | some v => some { b with retry_delays := v }
  | none => none

/-- `DownloaderBuilder::build`: the HTTP client construction is external;
its outcome is the oracle `client`, whose error is surfaced verbatim as a
transport error.  The coordinator starts with `prev_download_start =
None`. -/
def DownloaderBuilder.build (b : DownloaderBuilder) (client : Except Nat Unit) :
    Except Err Downloader :=
  match client with
  | .error id => .error (.reqwest id)
  | .ok _ => .ok ⟨b.min_interval, b.max_interval, b.retry_delays, none⟩

/-- The configuration invariant maintained by the builder. -/
def BuilderInv (b : DownloaderBuilder) : Prop :=
  b.min_interval ≤ b.max_interval ∧ ∀ p ∈ b.retry_delays, p.1 ≤ p.2

-- ======================================================================
-- Facts about the conversions

theorem round_mono_q (x y : ℚ) (h : x ≤ y) : round x ≤ round y := by
  rw [round_eq, round_eq]
  exact Int.floor_mono (by linarith)

theorem duration_from_secs_eq_none (q : ℚ) :
    duration_from_secs q = none ↔ ¬ Representable q := by
  rw [duration_from_secs]
  split
  case isTrue h =>
    constructor
    · intro _ hr
      obtain ⟨hr1, hr2⟩ := hr
      rcases h with h | h
      · exact absurd hr1 (not_le.mpr h)
      · exact absurd hr2 (not_le.mpr h)
    · intro _
      rfl
  case isFalse h =>
    push_neg at h
    constructor
    · intro hc
      exact absurd hc (by simp)
    · intro hc
      exact absurd ⟨h.1, h.2⟩ hc

theorem duration_from_secs_eq_some (q : ℚ) (n : Nat)
    (h : duration_from_secs q = some n) :
    Representable q ∧ n = (round (q * 1000000000)).toNat := by
  by_cases hq : q < 0 ∨ (MAX_DURATION_NANOS : ℤ) < round (q * 1000000000)
  · rw [duration_from_secs, if_pos hq] at h
    exact absurd h (by simp)
  · rw [duration_from_secs, if_neg hq] at h
    push_neg at hq
    exact ⟨⟨hq.1, hq.2⟩, (Option.some.injEq _ _ ▸ h).symm⟩

theorem duration_from_secs_of_representable (q : ℚ) (h : Representable q) :
    duration_from_secs q = some (round (q * 1000000000)).toNat := by
  rw [duration_from_secs, if_neg]
  push_neg
  exact ⟨h.1, h.2⟩

theorem duration_from_secs_le (q1 q2 : ℚ) (n1 n2 : Nat) (h : q1 ≤ q2)
    (h1 : duration_from_secs q1 = some n1) (h2 : duration_from_secs q2 = some n2) :
    n1 ≤ n2 := by
  obtain ⟨_, rfl⟩ := duration_from_secs_eq_some q1 n1 h1
  obtain ⟨_, rfl⟩ := duration_from_secs_eq_some q2 n2 h2
  exact Int.toNat_le_toNat (round_mono_q _ _ (by
    have : (0 : ℚ) < 1000000000 := by norm_num
    exact mul_le_mul_of_nonneg_right h (by norm_num)))

theorem convertDelays_some_iff (l : List (ℚ × ℚ)) :
    (∃ v, convertDelays l = some v) ↔
      ∀ p ∈ l, p.1 ≤ p.2 ∧ Representable p.1 ∧ Representable p.2 := by
  induction l with
  | nil => simp [convertDelays]
  | cons hd tl ih =>
    obtain ⟨mn, mx⟩ := hd
    by_cases hle : mn ≤ mx
    · cases h1 : duration_from_secs mn with
      | none =>
        have hr1 := (duration_from_secs_eq_none mn).mp h1
        simp only [convertDelays, hle, if_true, h1]
        constructor
        · rintro ⟨v, hv⟩
          cases duration_from_secs mx <;> simp at hv
        · intro hall
          exact absurd (hall (mn, mx) (List.mem_cons_self _ _)).2.1 hr1
      | some dmn =>
        cases h2 : duration_from_secs mx with
        | none =>
          have hr2 := (duration_from_secs_eq_none mx).mp h2
          simp only [convertDelays, hle, if_true, h1, h2]
          constructor
          · rintro ⟨v, hv⟩
            simp at hv
          · intro hall
            exact absurd (hall (mn, mx) (List.mem_cons_self _ _)).2.2 hr2
        | some dmx =>
          have hr1 := (duration_from_secs_eq_some mn dmn h1).1
          have hr2 := (duration_from_secs_eq_some mx dmx h2).1
          simp only [convertDelays, hle, if_true, h1, h2]
          constructor
          · rintro ⟨v, hv⟩
            intro p hp
            rcases List.mem_cons.mp hp with rfl | hp
            · exact ⟨hle, hr1, hr2⟩
            · rcases htl : convertDelays tl with _ | v'
              · rw [htl] at hv
                simp at hv
              · exact (ih.mp ⟨v', htl⟩) p hp
          · intro hall
            obtain ⟨v', hv'⟩ := ih.mpr fun p hp => hall p (List.mem_cons_of_mem _ hp)
            exact ⟨(dmn, dmx) :: v', by rw [hv']⟩
    · simp only [convertDelays, hle, if_false]
      constructor
      · rintro ⟨v, hv⟩
        simp at hv
      · intro hall
        exact absurd (hall (mn, mx) (List.mem_cons_self _ _)).1 hle

theorem convertDelays_pairs (l : List (ℚ × ℚ)) (v : List (Nat × Nat))
    (h : convertDelays l = some v) : ∀ p ∈ v, p.1 ≤ p.2 := by
  induction l generalizing v with
  | nil =>
    simp only [convertDelays, Option.some.injEq] at h
    subst h
    simp
  | cons hd tl ih =>
    obtain ⟨mn, mx⟩ := hd
    simp only [convertDelays] at h
    split at h
    case isFalse => simp at h
    case isTrue hle =>
      cases h1 : duration_from_secs mn with
      | none => rw [h1] at h; simp at h
      | some dmn =>
        cases h2 : duration_from_secs mx with
        | none => rw [h1, h2] at h; simp at h
        | some dmx =>
          rw [h1, h2] at h
          cases htl : convertDelays tl with
          | none => rw [htl] at h; simp at h
          | some v' =>
            rw [htl] at h
            simp only [Option.some.injEq] at h
            subst h
            intro p hp
            rcases List.mem_cons.mp hp with rfl | hp
            · exact duration_from_secs_le mn mx dmn dmx hle h1 h2
            · exact ih v' htl p hp

-- ======================================================================
-- C9

/-- **C9 (counterexample).** The builder can abort even when `min ≤ max`:
with `min = -2` and `max = -1` seconds, the `assert!(min <= max)` passes
but `Duration::from_secs_f32` panics on the negative value, so `interval`
does not complete normally — the claimed "if and only if" fails. -/
theorem interval_panics_on_negative_cex :
    DownloaderBuilder.interval DownloaderBuilder.new (-2) (-1) = none ∧
    ((-2 : ℚ) ≤ -1) := by
  have h1 : duration_from_secs (-2) = none := by
    rw [duration_from_secs, if_pos (Or.inl (by norm_num))]
  have h2 : duration_from_secs (-1) = none := by
    rw [duration_from_secs, if_pos (Or.inl (by norm_num))]
  constructor
  · rw [DownloaderBuilder.interval, if_pos (by norm_num), h1, h2]
  · norm_num

/-- **C9 (amended).** `interval(min, max)` and `retry_delays(list)` abort
(panic) exactly when `min > max` for the interval or for some pair in the
list, or when a seconds value is rejected by the duration conversion
(negative, or beyond the `Duration` range); when every pair satisfies
`min ≤ max` with representable values they complete normally and store the
converted durations, preserving the other configuration, so the builder
configuration — starting from `new` — and hence the built coordinator
always satisfy `min_interval ≤ max_interval` and
`retry_delays[i].min ≤ retry_delays[i].max` for every `i`. -/
theorem builder_validates_min_le_max (b : DownloaderBuilder) (mn mx : ℚ)
    (rds : List (ℚ × ℚ)) :
    ((∃ b1, b.interval mn mx = some b1) ↔
      (mn ≤ mx ∧ Representable mn ∧ Representable mx)) ∧
    ((∃ b2, retry_delays b rds = some b2) ↔
      (∀ p ∈ rds, p.1 ≤ p.2 ∧ Representable p.1 ∧ Representable p.2)) ∧
    (∀ b1, b.interval mn mx = some b1 →
      b1.min_interval ≤ b1.max_interval ∧ b1.retry_delays = b.retry_delays) ∧
    (∀ b2, retry_delays b rds = some b2 →
      (∀ p ∈ b2.retry_delays, p.1 ≤ p.2) ∧
      b2.min_interval = b.min_interval ∧ b2.max_interval = b.max_interval) ∧
    BuilderInv DownloaderBuilder.new ∧
    (∀ b' client d', BuilderInv b' → DownloaderBuilder.build b' client = .ok d' →
      d'.min_interval ≤ d'.max_interval ∧ ∀ p ∈ d'.retry_delays, p.1 ≤ p.2) := by
  refine ⟨?_, ?_, ?_, ?_, ?_, ?_⟩
  · constructor
    · rintro ⟨b1, hb1⟩
      rw [DownloaderBuilder.interval] at hb1
      split at hb1
      case isFalse => simp at hb1
      case isTrue hle =>
        cases h1 : duration_from_secs mn with
        | none => rw [h1] at hb1; simp at hb1
        | some dmn =>
          cases h2 : duration_from_secs mx with
          | none => rw [h1, h2] at hb1; simp at hb1
          | some dmx =>
            exact ⟨hle, (duration_from_secs_eq_some mn dmn h1).1,
              (duration_from_secs_eq_some mx dmx h2).1⟩
    · rintro ⟨hle, h1, h2⟩
      rw [DownloaderBuilder.interval, if_pos hle,
        duration_from_secs_of_representable mn h1,
        duration_from_secs_of_representable mx h2]
      exact ⟨_, rfl⟩
  · constructor
    · rintro ⟨b2, hb2⟩
      rw [retry_delays] at hb2
      cases hv : convertDelays rds with
      | none => rw [hv] at hb2; simp at hb2
      | some v => exact (convertDelays_some_iff rds).mp ⟨v, hv⟩
    · intro hall
      obtain ⟨v, hv⟩ := (convertDelays_some_iff rds).mpr hall
      rw [retry_delays, hv]
      exact ⟨_, rfl⟩
  · intro b1 hb1
    rw [DownloaderBuilder.interval] at hb1
    split at hb1
    case isFalse => simp at hb1
    case isTrue hle =>
      cases h1 : duration_from_secs mn with
      | none => rw [h1] at hb1; simp at hb1
      | some dmn =>
        cases h2 : duration_from_secs mx with
        | none => rw [h1, h2] at hb1; simp at hb1
        | some dmx =>
          rw [h1, h2] at hb1
          simp only [Option.some.injEq] at hb1
          subst hb1
          exact ⟨duration_from_secs_le mn mx dmn dmx hle h1 h2, rfl⟩
  · intro b2 hb2
    rw [retry_delays] at hb2
    cases hv : convertDelays rds with
    | none => rw [hv] at hb2; simp at hb2
    | some v =>
      rw [hv] at hb2
      simp only [Option.some.injEq] at hb2
      subst hb2
      exact ⟨convertDelays_pairs rds v hv, rfl, rfl⟩
  · exact ⟨Nat.le_refl 0, by simp [DownloaderBuilder.new]⟩
  · intro b' client d' hInv hb
    cases client with
    | error id => simp [DownloaderBuilder.build] at hb
    | ok u =>
      simp only [DownloaderBuilder.build, Except.ok.injEq] at hb
      subst hb
      exact ⟨hInv.1, hInv.2⟩

/-- Witness for `builder_validates_min_le_max` at `interval(0, 1)` and
`retry_delays([(0, 1)])` from the default builder. -/
theorem builder_validates_min_le_max_witness :
    ((∃ b1, DownloaderBuilder.new.interval 0 1 = some b1) ↔
      ((0 : ℚ) ≤ 1 ∧ Representable 0 ∧ Representable 1)) ∧
    ((∃ b2, retry_delays DownloaderBuilder.new [(0, 1)] = some b2) ↔
      (∀ p ∈ [((0 : ℚ), (1 : ℚ))], p.1 ≤ p.2 ∧ Representable p.1 ∧ Representable p.2)) ∧
    (∀ b1, DownloaderBuilder.new.interval 0 1 = some b1 →
      b1.min_interval ≤ b1.max_interval ∧ b1.retry_delays = DownloaderBuilder.new.retry_delays) ∧
    (∀ b2, retry_delays DownloaderBuilder.new [(0, 1)] = some b2 →
      (∀ p ∈ b2.retry_delays, p.1 ≤ p.2) ∧
      b2.min_interval = DownloaderBuilder.new.min_interval ∧
      b2.max_interval = DownloaderBuilder.new.max_interval) ∧
    BuilderInv DownloaderBuilder.new ∧
    (∀ b' client d', BuilderInv b' → DownloaderBuilder.build b' client = .ok d' →
      d'.min_interval ≤ d'.max_interval ∧ ∀ p ∈ d'.retry_delays, p.1 ≤ p.2) :=
  builder_validates_min_le_max DownloaderBuilder.new 0 1 [(0, 1)]

end MlDownloader
